import Mathlib

set_option maxRecDepth 10000

/-! Verification of the `smartformat-korean` Hangul phoneme codec and
particle-allomorph selection engine, as a shallow embedding of the two
Python source files `smartformat_korean/hangul.py` and
`smartformatkorean.py`.

Conventions of the embedding:
* a Python unicode string is a `List Char` (`Str`); each entry of the
  phoneme tables is a single character, so table entries that are 1-char
  Python strings are modelled as `Char`;
* a raised Python exception is modelled as `none` of an `Option` result
  when it escapes the modelled function; `except`-handled exceptions are
  modelled by the handler's branch;
* `smartformatkorean.py` only runs on Python 2 (it calls the builtin
  `unichr` without importing it), where `/` on two ints is classic
  (floor) division, so its index divisions are embedded as `Nat`
  division, exactly like the `//` of `smartformat_korean/hangul.py`.
-/

/-- A Python unicode string: a list of unicode scalar values. -/
abbrev Str := List Char

namespace Hangul
/-! Embedding of `smartformat_korean/hangul.py`. -/

/-- Onset (초성) table, 19 entries. -/
def ONSETS : List Char := ("ㄱㄲㄴㄷㄸㄹㅁㅂㅃㅅㅆㅇㅈㅉㅊㅋㅌㅍㅎ".data)

/-- Nucleus (중성) table, 21 entries. -/
def NUCLEUSES : List Char := ("ㅏㅐㅑㅒㅓㅔㅕㅖㅗㅘㅙㅚㅛㅜㅝㅞㅟㅠㅡㅢㅣ".data)

/-- Coda (종성) table, 28 entries; entry 0 is the empty string `u''`. -/
def CODAS : List Str := [] :: (("ㄱㄲㄳㄴㄵㄶㄷㄹㄺㄻㄼㄽㄾㄿㅀㅁㅂㅄㅅㅆㅇㅈㅊㅋㅌㅍㅎ".data).map (fun c => [c]))

def NUM_ONSETS : Nat := ONSETS.length
def NUM_NUCLEUSES : Nat := NUCLEUSES.length
def NUM_CODAS : Nat := CODAS.length

/-- The Unicode offset of "가", the base offset for all Hangul letters. -/
def FIRST_HANGUL_OFFSET : Nat := ('가').toNat

/-- Python `u'가' <= letter <= u'힣'` on a single character. -/
def is_hangul (letter : Char) : Bool := decide ('가' ≤ letter) && decide (letter ≤ '힣')

/-- Python `join_phonemes(onset, nucleus, coda)`: `list.index` raises
`ValueError` (modelled as `none`) when a phoneme is not in its table. -/
def join_phonemes (onset nucleus : Char) (coda : Str) : Option Char :=
  match ONSETS.indexOf? onset, NUCLEUSES.indexOf? nucleus, CODAS.indexOf? coda with
  | some a, some b, some c =>
      some (Char.ofNat (FIRST_HANGUL_OFFSET + ((a * NUM_NUCLEUSES + b) * NUM_CODAS + c)))
  | _, _, _ => none

/-- Python `split_phonemes(letter)` with all three fields requested (the
keyword flags of the source merely skip computing fields the caller does
not need; every call site in the repository reads exactly the fields it
requests). `none` models the `ValueError` for a non-Hangul letter. -/
def split_phonemes (letter : Char) : Option (Char × Char × Str) :=
  if is_hangul letter then
    let offset := letter.toNat - FIRST_HANGUL_OFFSET
    match ONSETS[offset / (NUM_NUCLEUSES * NUM_CODAS)]?,
          NUCLEUSES[(offset / NUM_CODAS) % NUM_NUCLEUSES]?,
          CODAS[offset % NUM_CODAS]? with
    | some o, some n, some c => some (o, n, c)
    | _, _, _ => none
  else none

end Hangul

namespace SFK
/-! Embedding of `smartformatkorean.py`. -/

/-- `INITIALS`, 19 entries. -/
def INITIALS : List Char := ("ㄱㄲㄴㄷㄸㄹㅁㅂㅃㅅㅆㅇㅈㅉㅊㅋㅌㅍㅎ".data)

/-- `VOWELS`, 21 entries. -/
def VOWELS : List Char := ("ㅏㅐㅑㅒㅓㅔㅕㅖㅗㅘㅙㅚㅛㅜㅝㅞㅟㅠㅡㅢㅣ".data)

/-- `FINALS`, 28 entries; entry 0 is Python `None` (no trailing consonant). -/
def FINALS : List (Option Char) :=
  none :: (("ㄱㄲㄳㄴㄵㄶㄷㄹㄺㄻㄼㄽㄾㄿㅀㅁㅂㅄㅅㅆㅇㅈㅊㅋㅌㅍㅎ".data).map some)

def NUM_INITIALS : Nat := INITIALS.length
def NUM_VOWELS : Nat := VOWELS.length
def NUM_FINALS : Nat := FINALS.length

def FIRST_HANGUL_OFFSET : Nat := ('가').toNat

/-- Python `u'가' <= letter <= u'힣'` on a single character. -/
def is_hangul (letter : Char) : Bool := decide ('가' ≤ letter) && decide (letter ≤ '힣')

/-- Python `split_phonemes(letter)`; the `/` of the source is Python 2
classic division on nonnegative ints, i.e. floor division. -/
def split_phonemes (letter : Char) : Option (Char × Char × Option Char) :=
  if is_hangul letter then
    let offset := letter.toNat - FIRST_HANGUL_OFFSET
    match INITIALS[offset / (NUM_VOWELS * NUM_FINALS)]?,
          VOWELS[(offset / NUM_FINALS) % NUM_VOWELS]?,
          FINALS[offset % NUM_FINALS]? with
    | some i, some v, some f => some (i, v, f)
    | _, _, _ => none
  else none

/-- Python `join_phonemes(initial, vowel, final)`. -/
def join_phonemes (initial vowel : Char) (final : Option Char) : Option Char :=
  match INITIALS.indexOf? initial, VOWELS.indexOf? vowel, FINALS.indexOf? final with
  | some a, some b, some c =>
      some (Char.ofNat (FIRST_HANGUL_OFFSET + ((a * NUM_VOWELS + b) * NUM_FINALS + c)))
  | _, _, _ => none

/-- Python `pick_final(letter)`: the final component of the split. -/
def pick_final (letter : Char) : Option (Option Char) :=
  (split_phonemes letter).map (fun t => t.2.2)

/-- Search of `ENDING_BRACKET_PATTERN`, the regex `\(.*?\)$`, inside the
body of the word (the word with its closing `)` and an optional trailing
newline already removed): the leftmost `(` after which no newline occurs
starts the match, which then extends to the end of the body.  Returns the
part kept before the match, or `none` when nothing matches. -/
def stripSearch : Str → Option Str
  | [] => none
  | c :: rest =>
      if c = '(' ∧ '\x0a' ∉ rest then some []
      else (stripSearch rest).map (fun p => c :: p)

/-- Python `ENDING_BRACKET_PATTERN.sub(u'', word)`: the regex `\(.*?\)$`
matches a parenthesized group anchored at the end of the string (`$` also
matches just before one trailing newline, and `.` never matches a
newline); at most one match is possible, and it is removed. -/
def stripBracket (w : Str) : Str :=
  if w.getLast? = some ')' then
    match stripSearch w.dropLast with
    | some kept => kept
    | none => w
  else if w.getLast? = some '\x0a' ∧ w.dropLast.getLast? = some ')' then
    match stripSearch w.dropLast.dropLast with
    | some kept => kept ++ ['\x0a']
    | none => w
  else w

/-- A Korean particle (조사).  The source dispatches `allomorph` through a
subclass: the `euro` flag set on the one `Euro` instance encodes that
subclass's overridden `allomorph`. -/
structure Particle where
  form1 : Str
  form2 : Str
  default : Str
  euro : Bool
deriving DecidableEq, BEq

/-- Python `Particle.combine_forms(form1, form2)`: `u'%s(%s)'`. -/
def Particle.combine_forms (form1 form2 : Str) : Str :=
  form1 ++ '(' :: (form2 ++ [')'])

/-- Python `Particle(form1, form2)` with the default form computed. -/
def Particle.make (form1 form2 : Str) : Particle :=
  ⟨form1, form2, Particle.combine_forms form1 form2, false⟩

/-- Python `Particle(form1, form2, default)`. -/
def Particle.make3 (form1 form2 default : Str) : Particle :=
  ⟨form1, form2, default, false⟩

/-- Python `Particle.allomorph(final)`; the `euro` branch is the override
`Euro.allomorph` of the `Euro` subclass. -/
def Particle.allomorph (p : Particle) (final : Option Char) : Str :=
  if p.euro then
    if final = none ∨ final = some 'ㄹ' then p.form2 else p.form1
  else
    if final = none then p.form2 else p.form1

/-- Python `Particle.__call__(word)`.  `word[-1]` on the empty string
raises `IndexError`, which no handler catches (`none`); the `ValueError`
of `pick_final` on a non-Hangul last letter is caught and yields the
default form. -/
def Particle.call (p : Particle) (word : Str) : Option Str :=
  let w := stripBracket word
  match w.getLast? with
  | none => none
  | some last =>
      match pick_final last with
      | none => some p.default
      | some final => some (p.allomorph final)

/-- Python `Particle.__iter__`: the three representational forms, in
iteration order. -/
def Particle.forms (p : Particle) : List Str := [p.default, p.form1, p.form2]

/-- The singleton instance of the `Euro` subclass. -/
def Euro : Particle := ⟨("으로".data), ("로".data), ("(으)로".data), true⟩

namespace Ida
/-! The copula particle `Ida` ("이다"), a verb-fusion operator. -/

/-- The bidict `j_injections`: `{u'ㅓ': u'ㅕ', u'ㅔ': u'ㅖ'}`. -/
def j_injections : List (Char × Char) := [('ㅓ', 'ㅕ'), ('ㅔ', 'ㅖ')]

/-- The inverse direction `j_injections.inv`. -/
def j_injections_inv : List (Char × Char) := [('ㅕ', 'ㅓ'), ('ㅖ', 'ㅔ')]

/-- Removal of every occurrence of the literal `(이)` (the second
alternative of the regex `^이|\(이\)`), scanning left to right and
continuing after each removed match. -/
def subParenI : Str → Str
  | [] => []
  | '(' :: '이' :: ')' :: rest => subParenI rest
  | c :: rest => c :: subParenI rest

/-- Python `Ida.normalize_verb(verb)`: `re.sub(u'^이|\(이\)', u'', verb)`.
The anchored first alternative can only remove one leading `이`; the
second alternative removes every `(이)`. -/
def normalize_verb (v : Str) : Str :=
  if v.head? = some '이' then subParenI v.tail else subParenI v

/-- The three states of the Python local `final` in `Ida.__call__`:
`u''` (the word's last letter is not Hangul, from the handled
`ValueError`), `None` (open syllable) or a trailing consonant. -/
inductive Coda
  | unknown
  | absent
  | cons (c : Char)
deriving DecidableEq

/-- The computation of the local `final` of `Ida.__call__` from the last
letter of the word. -/
def codaOf (last : Char) : Coda :=
  match pick_final last with
  | none => .unknown
  | some none => .absent
  | some (some c) => .cons c

/-- The vowel-fusion block of `Ida.__call__` for a verb whose first
letter `(ni, nv, nf)` has onset `ㅇ` and vowel other than `ㅣ`: contracts
after a word that ends with a vowel (`final is None`), lengthens after
a word that ends with a consonant or with a non-Hangul letter
(`final is not None`, which includes the `u''` state). -/
def fuse (final : Coda) (nv : Char) (nf : Option Char) (verb : Str) : Option Str :=
  let mapping : Option Char :=
    match final with
    | .absent => j_injections.lookup nv
    | .unknown => j_injections_inv.lookup nv
    | .cons _ => j_injections_inv.lookup nv
  match mapping with
  | none => some verb
  | some nv2 => (join_phonemes 'ㅇ' nv2 nf).map (fun ch => ch :: verb.tail)

/-- Python `Ida.__call__(word, verb)`.  `none` models the uncaught
exceptions: `IndexError` on an empty stripped word or an empty normalized
verb, and `ValueError` from `split_phonemes` on a non-Hangul verb head. -/
def call (word verb0 : Str) : Option Str :=
  let w := stripBracket word
  let verb := normalize_verb verb0
  match w.getLast? with
  | none => none
  | some last =>
      let final := codaOf last
      match verb.head? with
      | none => none
      | some first =>
          match split_phonemes first with
          | none => none
          | some (ni, nv, nf) =>
              if ni = 'ㅇ' ∧ nv = 'ㅣ' then some verb
              else
                match (if ni = 'ㅇ' then fuse final nv nf verb else some verb) with
                | none => none
                | some v =>
                    match final with
                    | .unknown => some (("(이)".data) ++ v)
                    | .absent => some v
                    | .cons _ => some ('이' :: v)

end Ida

/-- The named regular particles of the `PARTICLES` list. -/
def EunNeun : Particle := Particle.make ("은".data) ("는".data)
def Iga : Particle := Particle.make ("이".data) ("가".data)
def Eulreul : Particle := Particle.make ("을".data) ("를".data)
def Gwawa : Particle := Particle.make ("과".data) ("와".data)
def Aya : Particle := Particle.make ("아".data) ("야".data)
def Iyeo : Particle := Particle.make3 ("이여".data) ("여".data) ("(이)여".data)
def Isiyeo : Particle := Particle.make3 ("이시여".data) ("시여".data) ("(이)시여".data)

/-- The module-level `PARTICLES` list, in source order. -/
def PARTICLES : List Particle := [EunNeun, Iga, Eulreul, Gwawa, Aya, Iyeo, Isiyeo, Euro]

/-- One step of the registry construction: insert all three
representational forms of a particle, failing (`none`, the fatal
`KeyError`) on a duplicate form. -/
def addForms (acc : Option (List (Str × Particle))) (p : Particle) : Option (List (Str × Particle)) :=
  p.forms.foldl
    (fun a f =>
      match a with
      | none => none
      | some idx => if (idx.lookup f).isSome then none else some (idx ++ [(f, p)]))
    acc

/-- Python `_particle_index`, built once from `PARTICLES`. -/
def particle_index : Option (List (Str × Particle)) :=
  PARTICLES.foldl addForms (some [])

/-- The explicit-spec resolution path of the `ko` formatter: look the
requested spec up in `_particle_index`; on `KeyError` fall back to the
copula `Ida` with the spec as the verb. -/
def resolve (word spec : Str) : Option Str :=
  match particle_index with
  | none => none
  | some idx =>
      match idx.lookup spec with
      | some p => Particle.call p word
      | none => Ida.call word spec

end SFK

/-! ## Bridging lemmas -/

/-- Character order is codepoint order. -/
theorem char_le_iff {a b : Char} : a ≤ b ↔ a.toNat ≤ b.toNat := Iff.rfl

theorem hangul_is_hangul_iff (c : Char) :
    Hangul.is_hangul c = true ↔ (0xAC00 ≤ c.toNat ∧ c.toNat ≤ 0xD7A3) := by
  have hlo : ('가').toNat = 0xAC00 := rfl
  have hhi : ('힣').toNat = 0xD7A3 := rfl
  simp [Hangul.is_hangul, char_le_iff, hlo, hhi]

theorem sfk_is_hangul_iff (c : Char) :
    SFK.is_hangul c = true ↔ (0xAC00 ≤ c.toNat ∧ c.toNat ≤ 0xD7A3) := by
  have hlo : ('가').toNat = 0xAC00 := rfl
  have hhi : ('힣').toNat = 0xD7A3 := rfl
  simp [SFK.is_hangul, char_le_iff, hlo, hhi]

/-! ## Table index facts, decided entry by entry -/

theorem Hangul.onset_bind : ∀ i : Fin 19,
    (Hangul.ONSETS[(i : Nat)]?.bind (fun c => Hangul.ONSETS.indexOf? c)) = some (i : Nat) := by
  decide

theorem Hangul.nucleus_bind : ∀ i : Fin 21,
    (Hangul.NUCLEUSES[(i : Nat)]?.bind (fun c => Hangul.NUCLEUSES.indexOf? c)) = some (i : Nat) := by
  decide

theorem Hangul.coda_bind : ∀ i : Fin 28,
    (Hangul.CODAS[(i : Nat)]?.bind (fun c => Hangul.CODAS.indexOf? c)) = some (i : Nat) := by
  decide

theorem SFK.final_bind : ∀ i : Fin 28,
    (SFK.FINALS[(i : Nat)]?.bind (fun c => SFK.FINALS.indexOf? c)) = some (i : Nat) := by
  decide

/-- The two onset tables are the same list. -/
theorem tables_onset_eq : SFK.INITIALS = Hangul.ONSETS := rfl

/-- The two nucleus tables are the same list. -/
theorem tables_nucleus_eq : SFK.VOWELS = Hangul.NUCLEUSES := rfl

/-- Entrywise correspondence of the two coda tables: `None` stands where
the empty string stands, a consonant where its 1-letter string stands. -/
theorem tables_coda_corr : ∀ i : Fin 28,
    (SFK.FINALS[(i : Nat)]?.map (fun f => f.elim [] (fun c => [c]))) = Hangul.CODAS[(i : Nat)]? := by
  decide

/-! ## Evaluation of the two decompositions on the Hangul block -/

theorem hangul_split_eval (ch : Char) (h1 : 0xAC00 ≤ ch.toNat) (h2 : ch.toNat ≤ 0xD7A3) :
    ∃ o n c,
      Hangul.ONSETS[(ch.toNat - 0xAC00) / 588]? = some o ∧
      Hangul.NUCLEUSES[((ch.toNat - 0xAC00) / 28) % 21]? = some n ∧
      Hangul.CODAS[(ch.toNat - 0xAC00) % 28]? = some c ∧
      Hangul.split_phonemes ch = some (o, n, c) := by
  have hh : Hangul.is_hangul ch = true := (hangul_is_hangul_iff ch).mpr ⟨h1, h2⟩
  have e1 : Hangul.NUM_NUCLEUSES * Hangul.NUM_CODAS = 588 := rfl
  have e2 : Hangul.NUM_CODAS = 28 := rfl
  have e3 : Hangul.NUM_NUCLEUSES = 21 := rfl
  have e4 : Hangul.FIRST_HANGUL_OFFSET = 0xAC00 := rfl
  have l1 : Hangul.ONSETS.length = 19 := rfl
  have l2 : Hangul.NUCLEUSES.length = 21 := rfl
  have l3 : Hangul.CODAS.length = 28 := rfl
  have b1 : (ch.toNat - 0xAC00) / 588 < 19 := by omega
  have b2 : ((ch.toNat - 0xAC00) / 28) % 21 < 21 := by omega
  have b3 : (ch.toNat - 0xAC00) % 28 < 28 := by omega
  obtain ⟨o, g1⟩ : ∃ o, Hangul.ONSETS[(ch.toNat - 0xAC00) / 588]? = some o :=
    Option.isSome_iff_exists.mp (by rw [List.getElem?_eq_getElem (l1 ▸ b1)]; rfl)
  obtain ⟨n, g2⟩ : ∃ n, Hangul.NUCLEUSES[((ch.toNat - 0xAC00) / 28) % 21]? = some n :=
    Option.isSome_iff_exists.mp (by rw [List.getElem?_eq_getElem (l2 ▸ b2)]; rfl)
  obtain ⟨c, g3⟩ : ∃ c, Hangul.CODAS[(ch.toNat - 0xAC00) % 28]? = some c :=
    Option.isSome_iff_exists.mp (by rw [List.getElem?_eq_getElem (l3 ▸ b3)]; rfl)
  refine ⟨o, n, c, g1, g2, g3, ?_⟩
  simp only [Hangul.split_phonemes, hh, if_true, e1, e2, e3, e4, g1, g2, g3]

theorem sfk_split_eval (ch : Char) (h1 : 0xAC00 ≤ ch.toNat) (h2 : ch.toNat ≤ 0xD7A3) :
    ∃ i v f,
      SFK.INITIALS[(ch.toNat - 0xAC00) / 588]? = some i ∧
      SFK.VOWELS[((ch.toNat - 0xAC00) / 28) % 21]? = some v ∧
      SFK.FINALS[(ch.toNat - 0xAC00) % 28]? = some f ∧
      SFK.split_phonemes ch = some (i, v, f) := by
  have hh : SFK.is_hangul ch = true := (sfk_is_hangul_iff ch).mpr ⟨h1, h2⟩
  have e1 : SFK.NUM_VOWELS * SFK.NUM_FINALS = 588 := rfl
  have e2 : SFK.NUM_FINALS = 28 := rfl
  have e3 : SFK.NUM_VOWELS = 21 := rfl
  have e4 : SFK.FIRST_HANGUL_OFFSET = 0xAC00 := rfl
  have l1 : SFK.INITIALS.length = 19 := rfl
  have l2 : SFK.VOWELS.length = 21 := rfl
  have l3 : SFK.FINALS.length = 28 := rfl
  have b1 : (ch.toNat - 0xAC00) / 588 < 19 := by omega
  have b2 : ((ch.toNat - 0xAC00) / 28) % 21 < 21 := by omega
  have b3 : (ch.toNat - 0xAC00) % 28 < 28 := by omega
  obtain ⟨i, g1⟩ : ∃ i, SFK.INITIALS[(ch.toNat - 0xAC00) / 588]? = some i :=
    Option.isSome_iff_exists.mp (by rw [List.getElem?_eq_getElem (l1 ▸ b1)]; rfl)
  obtain ⟨v, g2⟩ : ∃ v, SFK.VOWELS[((ch.toNat - 0xAC00) / 28) % 21]? = some v :=
    Option.isSome_iff_exists.mp (by rw [List.getElem?_eq_getElem (l2 ▸ b2)]; rfl)
  obtain ⟨f, g3⟩ : ∃ f, SFK.FINALS[(ch.toNat - 0xAC00) % 28]? = some f :=
    Option.isSome_iff_exists.mp (by rw [List.getElem?_eq_getElem (l3 ▸ b3)]; rfl)
  refine ⟨i, v, f, g1, g2, g3, ?_⟩
  simp only [SFK.split_phonemes, hh, if_true, e1, e2, e3, e4, g1, g2, g3]

/-- The composite index of a split letter recombines to the letter's
codepoint offset. -/
theorem offset_recombine (t : Nat) (h1 : 0xAC00 ≤ t) (h2 : t ≤ 0xD7A3) :
    0xAC00 + (((t - 0xAC00) / 588 * 21 + ((t - 0xAC00) / 28) % 21) * 28 + (t - 0xAC00) % 28) = t := by
  omega

/-- C1.  For every codepoint in the Hangul syllable block, joining the
phoneme triple obtained by splitting the letter yields the letter back:
`join_phonemes(split_phonemes(chr(c))) == chr(c)`. -/
theorem claim_C1_roundtrip (ch : Char) (h1 : 0xAC00 ≤ ch.toNat) (h2 : ch.toNat ≤ 0xD7A3) :
    (Hangul.split_phonemes ch).bind (fun t => Hangul.join_phonemes t.1 t.2.1 t.2.2) = some ch := by
  have b1 : (ch.toNat - 0xAC00) / 588 < 19 := by omega
  have b2 : ((ch.toNat - 0xAC00) / 28) % 21 < 21 := by omega
  have b3 : (ch.toNat - 0xAC00) % 28 < 28 := by omega
  obtain ⟨o, n, c, g1, g2, g3, hsplit⟩ := hangul_split_eval ch h1 h2
  rw [hsplit]
  have i1 : Hangul.ONSETS.indexOf? o = some ((ch.toNat - 0xAC00) / 588) := by
    have hb := Hangul.onset_bind ⟨(ch.toNat - 0xAC00) / 588, b1⟩
    rw [g1] at hb
    simpa using hb
  have i2 : Hangul.NUCLEUSES.indexOf? n = some (((ch.toNat - 0xAC00) / 28) % 21) := by
    have hb := Hangul.nucleus_bind ⟨((ch.toNat - 0xAC00) / 28) % 21, b2⟩
    rw [g2] at hb
    simpa using hb
  have i3 : Hangul.CODAS.indexOf? c = some ((ch.toNat - 0xAC00) % 28) := by
    have hb := Hangul.coda_bind ⟨(ch.toNat - 0xAC00) % 28, b3⟩
    rw [g3] at hb
    simpa using hb
  have e2 : Hangul.NUM_CODAS = 28 := rfl
  have e3 : Hangul.NUM_NUCLEUSES = 21 := rfl
  have e4 : Hangul.FIRST_HANGUL_OFFSET = 0xAC00 := rfl
  simp only [Option.some_bind, Hangul.join_phonemes, i1, i2, i3, e2, e3, e4]
  rw [offset_recombine ch.toNat h1 h2, Char.ofNat_toNat]

/-- Witness for C1 at the concrete letter "간". -/
theorem claim_C1_roundtrip_witness :
    0xAC00 ≤ ('간').toNat ∧ ('간').toNat ≤ 0xD7A3 ∧
    (Hangul.split_phonemes '간').bind (fun t => Hangul.join_phonemes t.1 t.2.1 t.2.2) = some '간' :=
  ⟨by decide, by decide, claim_C1_roundtrip '간' (by decide) (by decide)⟩

/-- C2.  The two near-duplicate decompositions agree on every Hangul
syllable: under the Python 2 semantics in which `smartformatkorean.py`
runs, its `split_phonemes` returns the same (onset, nucleus, coda)
triple as `smartformat_korean.hangul.split_phonemes`, the absent coda
standing as `None` in the one copy and as the empty string in the
other. -/
theorem claim_C2_split_copies_agree (ch : Char) (h1 : 0xAC00 ≤ ch.toNat) (h2 : ch.toNat ≤ 0xD7A3) :
    ∃ o n f, SFK.split_phonemes ch = some (o, n, f) ∧
      Hangul.split_phonemes ch = some (o, n, f.elim [] (fun c => [c])) := by
  have b3 : (ch.toNat - 0xAC00) % 28 < 28 := by omega
  obtain ⟨i, v, f, g1, g2, g3, hs⟩ := sfk_split_eval ch h1 h2
  obtain ⟨o, n, c, G1, G2, G3, hh⟩ := hangul_split_eval ch h1 h2
  have ho : i = o := by
    have := tables_onset_eq ▸ g1
    rw [G1] at this
    exact Option.some_injective _ this.symm
  have hn : v = n := by
    have := tables_nucleus_eq ▸ g2
    rw [G2] at this
    exact Option.some_injective _ this.symm
  have hc : c = f.elim [] (fun c0 => [c0]) := by
    have hcorr := tables_coda_corr ⟨(ch.toNat - 0xAC00) % 28, b3⟩
    rw [g3, G3] at hcorr
    simpa using hcorr.symm
  exact ⟨i, v, f, hs, by rw [hh, ho, hn, hc]⟩

/-- Witness for C2 at the concrete letter "믜". -/
theorem claim_C2_split_copies_agree_witness :
    0xAC00 ≤ ('믜').toNat ∧ ('믜').toNat ≤ 0xD7A3 ∧
    (∃ o n f, SFK.split_phonemes '믜' = some (o, n, f) ∧
      Hangul.split_phonemes '믜' = some (o, n, f.elim [] (fun c => [c]))) :=
  ⟨by decide, by decide, claim_C2_split_copies_agree '믜' (by decide) (by decide)⟩

/-- C3.  For every word that is non-empty after trailing-bracket
stripping, a regular particle's selection returns `form2` when the last
letter is an open Hangul syllable, `form1` when it is a closed Hangul
syllable, and the default presentational form when it is not a Hangul
syllable. -/
theorem claim_C3_regular_select (p : SFK.Particle) (word : Str) (last : Char)
    (hp : p.euro = false)
    (hlast : (SFK.stripBracket word).getLast? = some last) :
    (SFK.pick_final last = some none → SFK.Particle.call p word = some p.form2)
    ∧ (∀ c, SFK.pick_final last = some (some c) → SFK.Particle.call p word = some p.form1)
    ∧ (SFK.pick_final last = none → SFK.Particle.call p word = some p.default) := by
  refine ⟨fun h => ?_, fun c h => ?_, fun h => ?_⟩ <;>
    simp [SFK.Particle.call, hlast, h, SFK.Particle.allomorph, hp]

/-- Witness for C3: the particle 은/는 on the open-syllable word
"피카츄", the closed-syllable word "버터플" and the non-Hangul word
"Pikachu". -/
theorem claim_C3_regular_select_witness :
    SFK.EunNeun.euro = false
    ∧ (SFK.stripBracket ("피카츄".data)).getLast? = some '츄'
    ∧ ((SFK.pick_final '츄' = some none →
          SFK.Particle.call SFK.EunNeun ("피카츄".data) = some SFK.EunNeun.form2)
       ∧ (∀ c, SFK.pick_final '츄' = some (some c) →
          SFK.Particle.call SFK.EunNeun ("피카츄".data) = some SFK.EunNeun.form1)
       ∧ (SFK.pick_final '츄' = none →
          SFK.Particle.call SFK.EunNeun ("피카츄".data) = some SFK.EunNeun.default)) :=
  ⟨by decide, by decide,
    claim_C3_regular_select SFK.EunNeun ("피카츄".data) '츄' (by decide) (by decide)⟩

/-- C6.  The directional particle 으로 selects the short form "로" when
the final coda is absent or is "ㄹ", the long form "으로" for every
other coda, and the default "(으)로" when the word's last letter (after
bracket stripping) is not a Hangul syllable. -/
theorem claim_C6_euro_select (word : Str) (last : Char)
    (hlast : (SFK.stripBracket word).getLast? = some last) :
    (SFK.pick_final last = some none →
        SFK.Particle.call SFK.Euro word = some ("로".data))
    ∧ (SFK.pick_final last = some (some 'ㄹ') →
        SFK.Particle.call SFK.Euro word = some ("로".data))
    ∧ (∀ c, c ≠ 'ㄹ' → SFK.pick_final last = some (some c) →
        SFK.Particle.call SFK.Euro word = some ("으로".data))
    ∧ (SFK.pick_final last = none →
        SFK.Particle.call SFK.Euro word = some ("(으)로".data)) := by
  refine ⟨fun h => ?_, fun h => ?_, fun c hc h => ?_, fun h => ?_⟩
  · simp [SFK.Particle.call, hlast, h, SFK.Particle.allomorph, SFK.Euro]
  · simp [SFK.Particle.call, hlast, h, SFK.Particle.allomorph, SFK.Euro]
  · simp [SFK.Particle.call, hlast, h, SFK.Particle.allomorph, SFK.Euro, hc]
  · simp [SFK.Particle.call, hlast, h, SFK.Particle.allomorph, SFK.Euro]

/-- Witness for C6 on the ㄹ-final word "버터플", with all four selection
cases instantiated at its last letter. -/
theorem claim_C6_euro_select_witness :
    (SFK.stripBracket ("버터플".data)).getLast? = some '플'
    ∧ ((SFK.pick_final '플' = some none →
          SFK.Particle.call SFK.Euro ("버터플".data) = some ("로".data))
       ∧ (SFK.pick_final '플' = some (some 'ㄹ') →
          SFK.Particle.call SFK.Euro ("버터플".data) = some ("로".data))
       ∧ (∀ c, c ≠ 'ㄹ' → SFK.pick_final '플' = some (some c) →
          SFK.Particle.call SFK.Euro ("버터플".data) = some ("으로".data))
       ∧ (SFK.pick_final '플' = none →
          SFK.Particle.call SFK.Euro ("버터플".data) = some ("(으)로".data))) :=
  ⟨by decide, claim_C6_euro_select ("버터플".data) '플' (by decide)⟩

/-- C4, counterexample.  The claim predicts that for a word whose last
letter is not Hangul the result is always "(이)" prepended to the verb,
the no-prefix exception applying only when the word ends in a closed
syllable; but for the non-Hangul word "Pikachu" and the verb "익다"
(onset ㅇ, vowel ㅣ) the code returns the verb unchanged, not
"(이)익다". -/
theorem claim_C4_counterexample :
    SFK.Ida.call ("Pikachu".data) ("익다".data) = some ("익다".data)
    ∧ SFK.Ida.call ("Pikachu".data) ("익다".data) ≠ some ("(이)익다".data) := by
  constructor
  · decide
  · decide

/-- C4, amended.  The copula `Ida(word, verb)` selects its prefix from
the word's final coda after normalizing the verb and applying any vowel
fusion: non-Hangul last letter → "(이)" + verb, open syllable → verb
unchanged, closed syllable → "이" + verb — with the exception that a
verb whose first letter has onset ㅇ and vowel ㅣ is returned unchanged
with no prefix REGARDLESS of the word's coda (not only after a closed
syllable, as the original claim stated). -/
theorem claim_C4_amended (word verb0 : Str) (last first ni nv : Char) (nf : Option Char) (fv : Str)
    (hw : (SFK.stripBracket word).getLast? = some last)
    (hv : (SFK.Ida.normalize_verb verb0).head? = some first)
    (hs : SFK.split_phonemes first = some (ni, nv, nf))
    (hf : (if ni = 'ㅇ' then
             SFK.Ida.fuse (SFK.Ida.codaOf last) nv nf (SFK.Ida.normalize_verb verb0)
           else some (SFK.Ida.normalize_verb verb0)) = some fv) :
    (ni = 'ㅇ' → nv = 'ㅣ' → SFK.Ida.call word verb0 = some (SFK.Ida.normalize_verb verb0))
    ∧ (¬(ni = 'ㅇ' ∧ nv = 'ㅣ') →
        (SFK.Ida.codaOf last = SFK.Ida.Coda.unknown →
            SFK.Ida.call word verb0 = some (("(이)".data) ++ fv))
        ∧ (SFK.Ida.codaOf last = SFK.Ida.Coda.absent →
            SFK.Ida.call word verb0 = some fv)
        ∧ (∀ c, SFK.Ida.codaOf last = SFK.Ida.Coda.cons c →
            SFK.Ida.call word verb0 = some ('이' :: fv))) := by
  cases hnh : (SFK.Ida.normalize_verb verb0).head? with
  | none => rw [hnh] at hv; exact absurd hv (by simp)
  | some f0 =>
    rw [hnh] at hv
    constructor
    · intro h1 h2
      subst h1; subst h2
      simp [SFK.Ida.call, hw, hnh, hv, hs]
    · intro hno
      refine ⟨fun hc => ?_, fun hc => ?_, fun c hc => ?_⟩ <;>
        simp [SFK.Ida.call, hw, hnh, hv, hs, hno, hc, hf] <;>
        simp [hc] at hf <;> simp [hf]

/-- Witness for C4 (amended) on the closed-syllable word "곰" and the
verb "여서", whose fused form is "어서". -/
theorem claim_C4_amended_witness :
    (SFK.stripBracket ("곰".data)).getLast? = some '곰'
    ∧ (SFK.Ida.normalize_verb ("여서".data)).head? = some '여'
    ∧ SFK.split_phonemes '여' = some ('ㅇ', 'ㅕ', none)
    ∧ (if ('ㅇ' : Char) = 'ㅇ' then
         SFK.Ida.fuse (SFK.Ida.codaOf '곰') 'ㅕ' none (SFK.Ida.normalize_verb ("여서".data))
       else some (SFK.Ida.normalize_verb ("여서".data))) = some ("어서".data)
    ∧ (('ㅇ' : Char) = 'ㅇ' → ('ㅕ' : Char) = 'ㅣ' →
         SFK.Ida.call ("곰".data) ("여서".data) = some (SFK.Ida.normalize_verb ("여서".data)))
    ∧ (¬(('ㅇ' : Char) = 'ㅇ' ∧ ('ㅕ' : Char) = 'ㅣ') →
        (SFK.Ida.codaOf '곰' = SFK.Ida.Coda.unknown →
            SFK.Ida.call ("곰".data) ("여서".data) = some (("(이)".data) ++ ("어서".data)))
        ∧ (SFK.Ida.codaOf '곰' = SFK.Ida.Coda.absent →
            SFK.Ida.call ("곰".data) ("여서".data) = some ("어서".data))
        ∧ (∀ c, SFK.Ida.codaOf '곰' = SFK.Ida.Coda.cons c →
            SFK.Ida.call ("곰".data) ("여서".data) = some ('이' :: ("어서".data)))) :=
  ⟨by decide, by decide, by decide, by decide,
    (claim_C4_amended ("곰".data) ("여서".data) '곰' '여' 'ㅇ' 'ㅕ' none ("어서".data)
      (by decide) (by decide) (by decide) (by decide)).1,
    (claim_C4_amended ("곰".data) ("여서".data) '곰' '여' 'ㅇ' 'ㅕ' none ("어서".data)
      (by decide) (by decide) (by decide) (by decide)).2⟩

/-- C5.  Copula vowel fusion: after a word ending in an open Hangul
syllable, a verb beginning with "이어"/"이에" contracts its first
syllable to "여"/"예" (the leading "이" being consumed by verb
normalization); after a word ending in a closed Hangul syllable, a verb
beginning with "여"/"예" is expanded to "이어"/"이에" and then prefixed
with "이".  The tail of the verb only undergoes the normalization removal
of literal "(이)" groups (`subParenI`). -/
theorem claim_C5_vowel_fusion (word : Str) (last : Char) (rest : Str)
    (hw : (SFK.stripBracket word).getLast? = some last) :
    (SFK.pick_final last = some none →
        SFK.Ida.call word ('이' :: '어' :: rest) = some ('여' :: SFK.Ida.subParenI rest)
        ∧ SFK.Ida.call word ('이' :: '에' :: rest) = some ('예' :: SFK.Ida.subParenI rest))
    ∧ (∀ c, SFK.pick_final last = some (some c) →
        SFK.Ida.call word ('여' :: rest) = some ('이' :: '어' :: SFK.Ida.subParenI rest)
        ∧ SFK.Ida.call word ('예' :: rest) = some ('이' :: '에' :: SFK.Ida.subParenI rest)) := by
  constructor
  · intro h
    have hcoda : SFK.Ida.codaOf last = SFK.Ida.Coda.absent := by
      simp [SFK.Ida.codaOf, h]
    constructor
    · have hnorm : SFK.Ida.normalize_verb ('이' :: '어' :: rest) =
          '어' :: SFK.Ida.subParenI rest := rfl
      have hsplit : SFK.split_phonemes '어' = some ('ㅇ', 'ㅓ', none) := by decide
      have hjoin : SFK.join_phonemes 'ㅇ' 'ㅕ' none = some '여' := by decide
      simp [SFK.Ida.call, hnorm, hw, hcoda, hsplit, SFK.Ida.fuse, SFK.Ida.j_injections,
        List.lookup, hjoin]
    · have hnorm : SFK.Ida.normalize_verb ('이' :: '에' :: rest) =
          '에' :: SFK.Ida.subParenI rest := rfl
      have hsplit : SFK.split_phonemes '에' = some ('ㅇ', 'ㅔ', none) := by decide
      have hjoin : SFK.join_phonemes 'ㅇ' 'ㅖ' none = some '예' := by decide
      simp [SFK.Ida.call, hnorm, hw, hcoda, hsplit, SFK.Ida.fuse, SFK.Ida.j_injections,
        List.lookup, hjoin]
  · intro c h
    have hcoda : SFK.Ida.codaOf last = SFK.Ida.Coda.cons c := by
      simp [SFK.Ida.codaOf, h]
    constructor
    · have hnorm : SFK.Ida.normalize_verb ('여' :: rest) =
          '여' :: SFK.Ida.subParenI rest := rfl
      have hsplit : SFK.split_phonemes '여' = some ('ㅇ', 'ㅕ', none) := by decide
      have hjoin : SFK.join_phonemes 'ㅇ' 'ㅓ' none = some '어' := by decide
      simp [SFK.Ida.call, hnorm, hw, hcoda, hsplit, SFK.Ida.fuse, SFK.Ida.j_injections_inv,
        List.lookup, hjoin]
    · have hnorm : SFK.Ida.normalize_verb ('예' :: rest) =
          '예' :: SFK.Ida.subParenI rest := rfl
      have hsplit : SFK.split_phonemes '예' = some ('ㅇ', 'ㅖ', none) := by decide
      have hjoin : SFK.join_phonemes 'ㅇ' 'ㅔ' none = some '에' := by decide
      simp [SFK.Ida.call, hnorm, hw, hcoda, hsplit, SFK.Ida.fuse, SFK.Ida.j_injections_inv,
        List.lookup, hjoin]

/-- Witness for C5 on the open-syllable word "피카츄" with verb tail
"서". -/
theorem claim_C5_vowel_fusion_witness :
    (SFK.stripBracket ("피카츄".data)).getLast? = some '츄'
    ∧ ((SFK.pick_final '츄' = some none →
          SFK.Ida.call ("피카츄".data) ('이' :: '어' :: ("서".data)) =
            some ('여' :: SFK.Ida.subParenI ("서".data))
          ∧ SFK.Ida.call ("피카츄".data) ('이' :: '에' :: ("서".data)) =
            some ('예' :: SFK.Ida.subParenI ("서".data)))
       ∧ (∀ c, SFK.pick_final '츄' = some (some c) →
          SFK.Ida.call ("피카츄".data) ('여' :: ("서".data)) =
            some ('이' :: '어' :: SFK.Ida.subParenI ("서".data))
          ∧ SFK.Ida.call ("피카츄".data) ('예' :: ("서".data)) =
            some ('이' :: '에' :: SFK.Ida.subParenI ("서".data)))) :=
  ⟨by decide, claim_C5_vowel_fusion ("피카츄".data) '츄' ("서".data) (by decide)⟩

theorem particle_call_isSome (p : SFK.Particle) (word : Str)
    (hw : SFK.stripBracket word ≠ []) :
    (SFK.Particle.call p word).isSome := by
  obtain ⟨last, hlast⟩ : ∃ l, (SFK.stripBracket word).getLast? = some l := by
    cases hgl : (SFK.stripBracket word).getLast? with
    | none => exact absurd (List.getLast?_eq_none_iff.mp hgl) hw
    | some l => exact ⟨l, rfl⟩
  cases hpf : SFK.pick_final last with
  | none => simp [SFK.Particle.call, hlast, hpf]
  | some f => simp [SFK.Particle.call, hlast, hpf]

theorem lookup_j_mem (nv nv2 : Char)
    (h : SFK.Ida.j_injections.lookup nv = some nv2) : nv2 = 'ㅕ' ∨ nv2 = 'ㅖ' := by
  cases hb1 : (nv == 'ㅓ') <;> cases hb2 : (nv == 'ㅔ') <;>
    simp [SFK.Ida.j_injections, List.lookup, hb1, hb2] at h
  all_goals first
  | (left; exact h.symm)
  | (right; exact h.symm)

theorem lookup_jinv_mem (nv nv2 : Char)
    (h : SFK.Ida.j_injections_inv.lookup nv = some nv2) : nv2 = 'ㅓ' ∨ nv2 = 'ㅔ' := by
  cases hb1 : (nv == 'ㅕ') <;> cases hb2 : (nv == 'ㅖ') <;>
    simp [SFK.Ida.j_injections_inv, List.lookup, hb1, hb2] at h
  all_goals first
  | (left; exact h.symm)
  | (right; exact h.symm)

theorem join_isSome_of (nv2 : Char)
    (hmem : nv2 = 'ㅕ' ∨ nv2 = 'ㅖ' ∨ nv2 = 'ㅓ' ∨ nv2 = 'ㅔ')
    (nf : Option Char) (k : Nat) (hnf : SFK.FINALS.indexOf? nf = some k) :
    (SFK.join_phonemes 'ㅇ' nv2 nf).isSome := by
  have hi : SFK.INITIALS.indexOf? 'ㅇ' = some 11 := by decide
  rcases hmem with h | h | h | h <;> subst h <;>
    simp [SFK.join_phonemes, hi, hnf, show SFK.VOWELS.indexOf? 'ㅕ' = some 6 from by decide,
      show SFK.VOWELS.indexOf? 'ㅖ' = some 7 from by decide,
      show SFK.VOWELS.indexOf? 'ㅓ' = some 4 from by decide,
      show SFK.VOWELS.indexOf? 'ㅔ' = some 5 from by decide]

theorem fuse_isSome (final : SFK.Ida.Coda) (nv : Char) (nf : Option Char) (v : Str)
    (k : Nat) (hnf : SFK.FINALS.indexOf? nf = some k) :
    (SFK.Ida.fuse final nv nf v).isSome := by
  unfold SFK.Ida.fuse
  cases final with
  | absent =>
      cases hl : SFK.Ida.j_injections.lookup nv with
      | none => simp [hl]
      | some nv2 =>
          have hm := lookup_j_mem nv nv2 hl
          have hj := join_isSome_of nv2 (by tauto) nf k hnf
          cases hjj : SFK.join_phonemes 'ㅇ' nv2 nf with
          | none => rw [hjj] at hj; simp at hj
          | some ch => simp [hl, hjj]
  | unknown =>
      cases hl : SFK.Ida.j_injections_inv.lookup nv with
      | none => simp [hl]
      | some nv2 =>
          have hm := lookup_jinv_mem nv nv2 hl
          have hj := join_isSome_of nv2 (by tauto) nf k hnf
          cases hjj : SFK.join_phonemes 'ㅇ' nv2 nf with
          | none => rw [hjj] at hj; simp at hj
          | some ch => simp [hl, hjj]
  | cons c =>
      cases hl : SFK.Ida.j_injections_inv.lookup nv with
      | none => simp [hl]
      | some nv2 =>
          have hm := lookup_jinv_mem nv nv2 hl
          have hj := join_isSome_of nv2 (by tauto) nf k hnf
          cases hjj : SFK.join_phonemes 'ㅇ' nv2 nf with
          | none => rw [hjj] at hj; simp at hj
          | some ch => simp [hl, hjj]

theorem ida_call_isSome (word verb : Str) (first : Char)
    (hw : SFK.stripBracket word ≠ [])
    (hv : (SFK.Ida.normalize_verb verb).head? = some first)
    (hh : SFK.is_hangul first = true) :
    (SFK.Ida.call word verb).isSome := by
  obtain ⟨hb1, hb2⟩ := (sfk_is_hangul_iff first).mp hh
  have b3 : (first.toNat - 0xAC00) % 28 < 28 := by omega
  obtain ⟨i, v, f, g1, g2, g3, hs⟩ := sfk_split_eval first hb1 hb2
  have hnf : SFK.FINALS.indexOf? f = some ((first.toNat - 0xAC00) % 28) := by
    have hbind := SFK.final_bind ⟨(first.toNat - 0xAC00) % 28, b3⟩
    rw [g3] at hbind
    simpa using hbind
  obtain ⟨last, hlast⟩ : ∃ l, (SFK.stripBracket word).getLast? = some l := by
    cases hgl : (SFK.stripBracket word).getLast? with
    | none => exact absurd (List.getLast?_eq_none_iff.mp hgl) hw
    | some l => exact ⟨l, rfl⟩
  by_cases hii : i = 'ㅇ' ∧ v = 'ㅣ'
  · simp [SFK.Ida.call, hlast, hv, hs, hii]
  · have hfu : (if i = 'ㅇ' then
        SFK.Ida.fuse (SFK.Ida.codaOf last) v f (SFK.Ida.normalize_verb verb)
      else some (SFK.Ida.normalize_verb verb)).isSome := by
      by_cases hio : i = 'ㅇ'
      · simpa [hio] using
          fuse_isSome (SFK.Ida.codaOf last) v f (SFK.Ida.normalize_verb verb) _ hnf
      · simp [hio]
    cases hfv : (if i = 'ㅇ' then
        SFK.Ida.fuse (SFK.Ida.codaOf last) v f (SFK.Ida.normalize_verb verb)
      else some (SFK.Ida.normalize_verb verb)) with
    | none => rw [hfv] at hfu; simp at hfu
    | some v2 =>
        cases hcd : SFK.Ida.codaOf last <;> rw [hcd] at hfv <;>
          simp [SFK.Ida.call, hlast, hv, hs, hii, hcd, hfv]

/-- C7, counterexample.  Selection and fusion do crash on the empty
word: `word[-1]` raises an uncaught `IndexError` both in
`Particle.__call__` and in `Ida.__call__`. -/
theorem claim_C7_counterexample :
    SFK.Particle.call SFK.EunNeun ([] : Str) = none
    ∧ SFK.Ida.call ([] : Str) ("이다".data) = none := by
  exact ⟨by decide, by decide⟩

/-- C7, amended.  For every word that is still non-empty after
trailing-bracket stripping, particle selection never raises, and copula
fusion never raises provided the normalized verb is non-empty and starts
with a Hangul syllable; the empty word (or a word whose stripped form is
empty) raises `IndexError` instead of degrading to the default form. -/
theorem claim_C7_amended (p : SFK.Particle) (word verb : Str) (first : Char)
    (hw : SFK.stripBracket word ≠ [])
    (hv : (SFK.Ida.normalize_verb verb).head? = some first)
    (hh : SFK.is_hangul first = true) :
    (SFK.Particle.call p word).isSome ∧ (SFK.Ida.call word verb).isSome :=
  ⟨particle_call_isSome p word hw, ida_call_isSome word verb first hw hv hh⟩

/-- Witness for C7 (amended) on the word "Pikachu" and the verb "이다". -/
theorem claim_C7_amended_witness :
    SFK.stripBracket ("Pikachu".data) ≠ []
    ∧ (SFK.Ida.normalize_verb ("이다".data)).head? = some '다'
    ∧ SFK.is_hangul '다' = true
    ∧ ((SFK.Particle.call SFK.EunNeun ("Pikachu".data)).isSome
       ∧ (SFK.Ida.call ("Pikachu".data) ("이다".data)).isSome) :=
  ⟨by decide, by decide, by decide,
    claim_C7_amended SFK.EunNeun ("Pikachu".data) ("이다".data) '다'
      (by decide) (by decide) (by decide)⟩

/-- C8, counterexample.  A non-empty spec that matches no registry form
and whose first letter is not a Hangul syllable is NOT resolved: the
fallback to the copula raises an uncaught `ValueError` from
`split_phonemes(verb[0])`. -/
theorem claim_C8_counterexample :
    (SFK.particle_index.bind (fun idx => idx.lookup ("abc".data))) = none
    ∧ ("abc".data : Str) ≠ []
    ∧ SFK.resolve ("피카츄".data) ("abc".data) = none := by
  exact ⟨by decide, by decide, by decide⟩

/-- C8, amended.  A non-empty spec that matches no registry surface form
is reinterpreted as a verb for copula fusion, and resolution returns a
result provided the normalized spec is non-empty and starts with a
Hangul syllable (and the word is non-empty after bracket stripping);
specs whose first significant letter is not a Hangul syllable raise
instead. -/
theorem claim_C8_amended (word spec : Str) (first : Char)
    (hs : (SFK.particle_index.bind (fun idx => idx.lookup spec)) = none)
    (hw : SFK.stripBracket word ≠ [])
    (hv : (SFK.Ida.normalize_verb spec).head? = some first)
    (hh : SFK.is_hangul first = true) :
    (SFK.resolve word spec).isSome := by
  cases hpi : SFK.particle_index with
  | none => exact absurd hpi (by decide)
  | some idx =>
      have hlook : idx.lookup spec = none := by
        rw [hpi] at hs
        exact hs
      simpa [SFK.resolve, hpi, hlook] using ida_call_isSome word spec first hw hv hh

/-- Witness for C8 (amended) on the word "피카츄" and the unknown spec
"다" (the docstring example "대한민국은 민주공화국이다"). -/
theorem claim_C8_amended_witness :
    (SFK.particle_index.bind (fun idx => idx.lookup ("다".data))) = none
    ∧ SFK.stripBracket ("피카츄".data) ≠ []
    ∧ (SFK.Ida.normalize_verb ("다".data)).head? = some '다'
    ∧ SFK.is_hangul '다' = true
    ∧ (SFK.resolve ("피카츄".data) ("다".data)).isSome :=
  ⟨by decide, by decide, by decide, by decide,
    claim_C8_amended ("피카츄".data) ("다".data) '다'
      (by decide) (by decide) (by decide) (by decide)⟩

/-- C9, counterexample.  The registry does map each particle's default
presentational form: looking up "은(는)" resolves to the 은/는
particle, contrary to the claim that the default is never a key. -/
theorem claim_C9_counterexample :
    (SFK.particle_index.bind (fun idx => idx.lookup ("은(는)".data))) = some SFK.EunNeun := by
  decide

/-- C9, amended.  The registry is built without a duplicate-form error
and maps exactly the THREE representational forms of each particle —
default, `form_with_coda` and `form_without_coda` — to their owning
particle (the iteration of `Particle.__iter__` yields the default form
too). -/
theorem claim_C9_amended :
    SFK.particle_index.isSome = true
    ∧ (SFK.particle_index.map (fun idx => idx.map Prod.fst)) =
        some (SFK.PARTICLES.flatMap (fun p => [p.default, p.form1, p.form2]))
    ∧ (SFK.PARTICLES.all (fun p =>
         (SFK.Particle.forms p).all (fun f =>
           (SFK.particle_index.bind (fun idx => idx.lookup f)) == some p))) = true := by
  exact ⟨by decide, by decide, by decide⟩

theorem stripSearch_of_no_paren (l : Str) (h : '(' ∉ l) : SFK.stripSearch l = none := by
  induction l with
  | nil => rfl
  | cons c rest ih =>
      have hc : c ≠ '(' := fun hc => h (hc ▸ List.mem_cons_self c rest)
      have hr : '(' ∉ rest := fun hm => h (List.mem_cons_of_mem c hm)
      simp [SFK.stripSearch, hc, ih hr]

theorem stripBracket_no_paren (w : Str) (h : '(' ∉ w) : SFK.stripBracket w = w := by
  have hd : '(' ∉ w.dropLast := fun hm => h ((List.dropLast_sublist w).subset hm)
  have hdd : '(' ∉ w.dropLast.dropLast := fun hm => hd ((List.dropLast_sublist w.dropLast).subset hm)
  unfold SFK.stripBracket
  split
  · rw [stripSearch_of_no_paren _ hd]
  · split
    · rw [stripSearch_of_no_paren _ hdd]
    · rfl

theorem stripSearch_append (w s : Str) (hw : '(' ∉ w) (hn : '\x0a' ∉ s) :
    SFK.stripSearch (w ++ '(' :: s) = some w := by
  induction w with
  | nil => simp [SFK.stripSearch, hn]
  | cons c rest ih =>
      have hc : c ≠ '(' := fun hc => hw (hc ▸ List.mem_cons_self c rest)
      have hr : '(' ∉ rest := fun hm => hw (List.mem_cons_of_mem c hm)
      simp [SFK.stripSearch, hc, ih hr]

theorem stripBracket_append (w s : Str) (hw : '(' ∉ w) (hn : '\x0a' ∉ s) :
    SFK.stripBracket (w ++ '(' :: (s ++ [')'])) = w := by
  have hre : w ++ '(' :: (s ++ [')']) = (w ++ '(' :: s) ++ [')'] := by
    simp
  rw [hre]
  unfold SFK.stripBracket
  rw [List.getLast?_concat, List.dropLast_concat]
  simp [stripSearch_append w s hw hn]

/-- C10, counterexample.  A trailing parenthetical annotation is not
always ignored: when the word itself contains a "(", the regex match
starts at the word's own "(", so appending "(x)" changes the selection;
and when the annotation contains a newline, no match is possible at all
and selection falls back to the default form. -/
theorem claim_C10_counterexample :
    SFK.Particle.call SFK.EunNeun (("윽(a".data) ++ '(' :: (("x".data) ++ [')']))
      ≠ SFK.Particle.call SFK.EunNeun ("윽(a".data)
    ∧ SFK.Particle.call SFK.EunNeun (("피카츄".data) ++ '(' :: (['\x0a'] ++ [')']))
      ≠ SFK.Particle.call SFK.EunNeun ("피카츄".data) := by
  exact ⟨by decide, by decide⟩

/-- C10, amended.  For every word containing no "(" and every annotation
body containing no parenthesis and no newline, appending a trailing
parenthetical group never affects particle selection:
`select(w + "(" + s + ")") = select(w)`. -/
theorem claim_C10_amended (p : SFK.Particle) (w s : Str)
    (hw : '(' ∉ w) (hs1 : '(' ∉ s) (hs2 : ')' ∉ s) (hn : '\x0a' ∉ s) :
    SFK.Particle.call p (w ++ '(' :: (s ++ [')'])) = SFK.Particle.call p w := by
  simp only [SFK.Particle.call, stripBracket_append w s hw hn, stripBracket_no_paren w hw]

/-- Witness for C10 (amended): the annotated word "피카츄(Lv.25)"
selects exactly as "피카츄" does. -/
theorem claim_C10_amended_witness :
    ('(' ∉ ("피카츄".data)) ∧ ('(' ∉ ("Lv.25".data)) ∧ (')' ∉ ("Lv.25".data))
    ∧ ('\x0a' ∉ ("Lv.25".data))
    ∧ SFK.Particle.call SFK.EunNeun (("피카츄".data) ++ '(' :: (("Lv.25".data) ++ [')']))
        = SFK.Particle.call SFK.EunNeun ("피카츄".data) :=
  ⟨by decide, by decide, by decide, by decide,
    claim_C10_amended SFK.EunNeun ("피카츄".data) ("Lv.25".data)
      (by decide) (by decide) (by decide) (by decide)⟩
